import Mathlib

/-!
Verification of the HTTP client of `be/src/http/http_client.h` (Apache Doris
backend): retrying request executor, streaming execution, file download with
length cross-check, and directory synchronization.

The two member functions whose bodies are inline in the header
(`get_content_length`, `get_response_content_type`) are embedded directly from
that source.  The remaining operations (`execute_with_retry`, `download`,
`download_multi_files`, the streaming `execute` overload, `_escape_url`) are
declared in the header but implemented in a translation unit that is not part
of this source tree; those are modelled from the specification, as marked on
each definition.
-/

namespace HttpClientSpec

/-- The status/result collaborator: a success marker or a failure carrying a
kind and a human-readable message.  Kinds are the ones the spec uses:
`InvalidArgument`, `NetworkError`, `HttpStatusError`, `InternalError`,
`DataCorruption`. -/
inductive Status where
  | ok : Status
  | invalidArgument (msg : String) : Status
  | networkError (msg : String) : Status
  | httpStatusError (msg : String) : Status
  | internalError (msg : String) : Status
  | dataCorruption (msg : String) : Status
deriving DecidableEq, Repr

def Status.isOk : Status → Bool
  | .ok => true
  | _ => false

def Status.isInvalidArgument : Status → Bool
  | .invalidArgument _ => true
  | _ => false

def Status.isNetworkError : Status → Bool
  | .networkError _ => true
  | _ => false

def Status.isInternalError : Status → Bool
  | .internalError _ => true
  | _ => false

def Status.isDataCorruption : Status → Bool
  | .dataCorruption _ => true
  | _ => false

/-! ## `HttpClient::get_content_length` (header, inline body)

```cpp
Status get_content_length(uint64_t* length) const {
    curl_off_t cl;
    auto code = curl_easy_getinfo(_curl, CURLINFO_CONTENT_LENGTH_DOWNLOAD_T, &cl);
    if (!code) {
        if (cl < 0) {
            return Status::InternalError("failed to get content length, ...");
        }
        *length = (uint64_t)cl;
        return Status::OK();
    }
    return Status::InternalError("failed to get content length. err code: {}", code);
}
```

The transport query is embedded by its two outputs: the curl return `code`
(`0` is `CURLE_OK`) and the reported length `cl` (a signed value; curl reports
`-1` when the length is unknown).  The in/out pointer `*length` is embedded by
passing the value it holds before the call and returning the value it holds
after the call. -/

def get_content_length (code : Nat) (cl : Int) (length : Nat) : Status × Nat :=
  if code = 0 then
    if cl < 0 then
      (Status.internalError "failed to get content length, it should be a positive value", length)
    else
      (Status.ok, cl.toNat)
  else
    (Status.internalError "failed to get content length. err code", length)

/-! ## `HttpClient::get_response_content_type` (header, inline body)

```cpp
std::string get_response_content_type() {
    char* ct = nullptr;
    auto code = curl_easy_getinfo(_curl, CURLINFO_CONTENT_TYPE, &ct);
    if (code == CURLE_OK && ct != nullptr) {
        return ct;
    }
    return std::string();
}
```

The transport query is embedded by its curl return `code` and the possibly-null
content-type string `ct` (an `Option String`). -/

def get_response_content_type (code : Nat) (ct : Option String) : String :=
  if code = 0 then
    match ct with
    | some s => s
    | none => ""
  else ""

/-! ## Retry orchestrator

Modelled from the spec: the body of `HttpClient::execute_with_retry
(retry_times, sleep_time, callback)` is not in this source tree (the header
only declares it).  Per spec 4.3: the unit of work is invoked up to
`maxAttempts` times; the loop terminates immediately on the first attempt that
returns success; after a failed attempt the orchestrator waits `delay` before
the next attempt, except after the final attempt; if all attempts fail the
last failure is returned; `maxAttempts <= 0` is an `InvalidArgument`
configuration error.

The unit of work is embedded as a function from the 0-based attempt index to
the status it returns on that attempt (it is opaque to the orchestrator and
may behave differently on each attempt).  The result records the final status,
the number of invocations of the unit of work, and the total time spent
waiting between attempts. -/

def retryLoop (work : Nat → Status) (delay : Nat) : Nat → Nat → Status × Nat × Nat
  | _, 0 => (Status.ok, 0, 0)
  | i, 1 => (work i, 1, 0)
  | i, m + 2 =>
      let s := work i
      if s.isOk then (s, 1, 0)
      else
        let r := retryLoop work delay (i + 1) (m + 1)
        (r.1, r.2.1 + 1, r.2.2 + delay)

/-- Modelled from the spec: `HttpClient::execute_with_retry` (see `retryLoop`).
`retry_times` keeps the C++ `int` type (an `Int`), so that the non-positive
guard is meaningful. -/
def execute_with_retry (retry_times : Int) (sleep_time : Nat)
    (work : Nat → Status) : Status × Nat × Nat :=
  if retry_times ≤ 0 then (Status.invalidArgument "retry times must be positive", 0, 0)
  else retryLoop work sleep_time 0 retry_times.toNat

/-! ## URL escaping

Modelled from the spec: the body of `HttpClient::_escape_url(url, escaped_url)`
is not in this source tree (the header only declares it, with a comment
quoting RFC 3986).  Per spec 4.1 and 8: any literal `%` character in the URL
is percent-encoded to `%25` before use. -/

def escape_url : List Char → List Char
  | [] => []
  | c :: rest =>
      if c = '%' then '%' :: '2' :: '5' :: escape_url rest
      else c :: escape_url rest

/-- Value of a hexadecimal digit, `none` for a non-hex character (RFC 3986
percent-decoding helper). -/
def hexVal (c : Char) : Option Nat :=
  let n := c.toNat
  if 48 ≤ n ∧ n ≤ 57 then some (n - 48)
  else if 65 ≤ n ∧ n ≤ 70 then some (n - 55)
  else if 97 ≤ n ∧ n ≤ 102 then some (n - 87)
  else none

/-- Standard RFC 3986 percent-decoding: a `%` followed by two hex digits
decodes to the octet they denote; anything else passes through unchanged. -/
def percentDecode : List Char → List Char
  | [] => []
  | '%' :: h1 :: h2 :: rest =>
      match hexVal h1, hexVal h2 with
      | some a, some b => Char.ofNat (16 * a + b) :: percentDecode rest
      | _, _ => '%' :: percentDecode (h1 :: h2 :: rest)
  | c :: rest => c :: percentDecode rest

/-! ## Filesystem collaborator

Modelled from the spec (section 6): `createOrTruncate`/`writeChunk`/`close`
collapse, for a completed stream, into writing a file of a given total size;
`delete(path)`; `listFiles(dir)`.  A directory is embedded as an association
list from file name to file size. -/

abbrev FS := List (String × Nat)

/-- Write (create or overwrite) the file `p` with `sz` bytes. -/
def fsWrite (fs : FS) (p : String) (sz : Nat) : FS :=
  (p, sz) :: fs.filter (fun e => e.1 ≠ p)

/-- Delete the file `p` (no-op if absent). -/
def fsDelete (fs : FS) (p : String) : FS :=
  fs.filter (fun e => e.1 ≠ p)

/-- Does the file `p` exist? -/
def fsExists (fs : FS) (p : String) : Bool :=
  fs.any (fun e => e.1 = p)

/-- `listFiles`: the names present in the directory. -/
def fsNames (fs : FS) : List String :=
  fs.map Prod.fst

/-! ## File download

Modelled from the spec: the body of `HttpClient::download(local_path)` is not
in this source tree (the header only declares it).  Per spec 4.4: a GET in
streaming mode pipes each chunk to the file and tracks total bytes written;
after the stream completes the byte count is cross-checked against the
`content_length` reported by the server whenever that header is present and
valid; a mismatch is a `DataCorruption` error and the file is deleted; any
transport/IO failure during the stream also deletes the partial file and
reports the failure.

One download's interaction with the transport is embedded as a `Transport`
record: the status of the streaming exchange, the number of bytes it
delivered (= wrote to the file), and the two outputs of the content-length
query exactly as in `get_content_length` (curl `code`, signed `cl`). -/

structure Transport where
  execStatus : Status
  delivered : Nat
  clCode : Nat
  cl : Int
deriving DecidableEq, Repr

/-- The content-length header is present and valid iff the query succeeds and
the value is non-negative (the success condition of `get_content_length`). -/
def clPresentValid (t : Transport) : Prop :=
  t.clCode = 0 ∧ 0 ≤ t.cl

instance (t : Transport) : Decidable (clPresentValid t) := by
  unfold clPresentValid; infer_instance

/-- Modelled from the spec: `HttpClient::download(local_path)` (see above). -/
def download (t : Transport) (local_path : String) (fs : FS) : Status × FS :=
  if t.execStatus.isOk then
    let fs1 := fsWrite fs local_path t.delivered
    if clPresentValid t then
      if t.cl.toNat = t.delivered then (Status.ok, fs1)
      else (Status.dataCorruption "download length mismatch", fsDelete fs1 local_path)
    else (Status.ok, fs1)
  else (t.execStatus, fsDelete fs local_path)

/-- The status `download` returns; it depends only on the transport outcome,
not on the path or the prior directory contents. -/
def downloadStatus (t : Transport) : Status :=
  if t.execStatus.isOk then
    if clPresentValid t then
      if t.cl.toNat = t.delivered then Status.ok
      else Status.dataCorruption "download length mismatch"
    else Status.ok
  else t.execStatus

/-! ## Directory sync

Modelled from the spec: the body of
`HttpClient::download_multi_files(local_dir, expected_files)` is not in this
source tree (the header only declares it).  Per spec 4.4: (1) list the local
files; (2) delete every local file not in the expected set; (3) for every
expected name not present locally (by name only), issue one `download` from
the URL formed by joining the base URL with the escaped filename; (4) the
first download failure aborts and is returned, earlier downloads staying in
place.

The remote side is embedded as a function from the fetched URL to the
`Transport` outcome of downloading it.  The result also records, in order,
the names for which a `download` call was issued. -/

def urlOf (base_url : String) (name : String) : String :=
  base_url ++ String.mk (escape_url name.toList)

def downloadLoop (remote : String → Transport) (base_url : String) :
    List String → FS → Status × FS × List String
  | [], fs => (Status.ok, fs, [])
  | n :: rest, fs =>
      let r := download (remote (urlOf base_url n)) n fs
      if r.1.isOk then
        let r2 := downloadLoop remote base_url rest r.2
        (r2.1, r2.2.1, n :: r2.2.2)
      else (r.1, r.2, [n])

/-- Modelled from the spec: `HttpClient::download_multi_files` (see above). -/
def download_multi_files (remote : String → Transport) (base_url : String)
    (expected_files : List String) (fs : FS) : Status × FS × List String :=
  let kept := fs.filter (fun e => decide (e.1 ∈ expected_files))
  let missing := expected_files.filter (fun n => decide (n ∉ fsNames fs))
  downloadLoop remote base_url missing kept

/-! ## Streaming execution

Modelled from the spec: the body of the streaming overload
`HttpClient::execute(callback)` is not in this source tree (the header only
declares it).  Per spec 4.2: the callback is invoked once per received chunk
in arrival order; returning `false` aborts the transfer (no further chunk is
delivered) and surfaces as `NetworkError` (transfer aborted by consumer).

A chunk is a transport-delivered fragment of the body, embedded as its byte
list; the wire is the list of chunks the transport would deliver.  The result
records the status and the chunks actually delivered to the callback, in
order. -/

abbrev Chunk := List Nat

def execute_streaming (cb : Chunk → Bool) : List Chunk → Status × List Chunk
  | [] => (Status.ok, [])
  | c :: rest =>
      if cb c then
        let r := execute_streaming cb rest
        (r.1, c :: r.2)
      else (Status.networkError "transfer aborted by consumer", [c])

/-! ### Concrete transports and remotes used to instantiate the theorems -/

/-- A transport whose exchange succeeds delivering 4 bytes, with the
content-length header present and agreeing. -/
def tOkSmall : Transport := ⟨Status.ok, 4, 0, 4⟩

/-- A transport whose streaming exchange fails at the network level. -/
def tBadNet : Transport := ⟨Status.networkError "connection reset", 2, 0, 9⟩

/-- A transport whose exchange succeeds but delivers 3 bytes against an
advertised content length of 7. -/
def tCorrupt : Transport := ⟨Status.ok, 3, 0, 7⟩

/-- A remote on which every URL downloads cleanly. -/
def remoteAllOk : String → Transport := fun _ => tOkSmall

/-- A remote on which the URL `"c"` fails at the network level and every
other URL downloads cleanly. -/
def remoteBadC : String → Transport := fun u => if u = "c" then tBadNet else tOkSmall

/-! ## Theorems -/

/-- C7: after an execution, if the transport query for the content length
fails or reports a negative value, `get_content_length` returns an
`InternalError` and leaves the output variable untouched (in particular it is
never defaulted to zero); if the query succeeds with a non-negative value, it
returns success and stores exactly that value. -/
theorem get_content_length_spec (code : Nat) (cl : Int) (len : Nat) :
    ((code ≠ 0 ∨ cl < 0) →
      (get_content_length code cl len).1.isInternalError = true ∧
        (get_content_length code cl len).2 = len) ∧
    (code = 0 → 0 ≤ cl →
      (get_content_length code cl len).1 = Status.ok ∧
        (get_content_length code cl len).2 = cl.toNat) := by
  unfold get_content_length
  constructor
  · rintro (h | h)
    · rw [if_neg h]
      exact ⟨rfl, rfl⟩
    · by_cases hc : code = 0
      · subst hc
        rw [if_pos rfl, if_pos h]
        exact ⟨rfl, rfl⟩
      · rw [if_neg hc]
        exact ⟨rfl, rfl⟩
  · intro h hcl
    subst h
    rw [if_pos rfl, if_neg (not_lt.mpr hcl)]
    exact ⟨rfl, rfl⟩

/-- Witness for C7: an unknown content length (curl reports `-1` with a
successful query) yields `InternalError` and leaves the output at its prior
value 5. -/
theorem get_content_length_spec_witness :
    (get_content_length 0 (-1) 5).1.isInternalError = true ∧
      (get_content_length 0 (-1) 5).2 = 5 :=
  (get_content_length_spec 0 (-1) 5).1 (Or.inr (by decide))

/-- C10: if the transport query for the content type fails or reports no
content type, `get_response_content_type` returns the empty string rather
than an error; otherwise it returns the reported content type verbatim. -/
theorem get_response_content_type_spec (code : Nat) (ct : Option String) :
    ((code ≠ 0 ∨ ct = none) → get_response_content_type code ct = "") ∧
    (∀ s, code = 0 → ct = some s → get_response_content_type code ct = s) := by
  unfold get_response_content_type
  constructor
  · rintro (h | h)
    · rw [if_neg h]
    · subst h
      by_cases hc : code = 0
      · subst hc
        rw [if_pos rfl]
      · rw [if_neg hc]
  · intro s h hs
    subst h
    subst hs
    rw [if_pos rfl]

/-- Witness for C10: a failed query (nonzero curl code) yields the empty
string, and a successful query yields the reported type verbatim. -/
theorem get_response_content_type_spec_witness :
    get_response_content_type 3 (some "application/json") = "" ∧
      get_response_content_type 0 (some "application/json") = "application/json" :=
  ⟨(get_response_content_type_spec 3 (some "application/json")).1 (Or.inl (by decide)),
    (get_response_content_type_spec 0 (some "application/json")).2
      "application/json" rfl rfl⟩

/-- C8: a non-positive attempt count makes the retry orchestrator return an
`InvalidArgument` error: it does not return success, and it invokes the unit
of work zero times (in particular it does not loop forever — the orchestrator
is a total function). -/
theorem execute_with_retry_nonpos (r : Int) (d : Nat) (work : Nat → Status)
    (h : r ≤ 0) :
    (execute_with_retry r d work).1.isInvalidArgument = true ∧
    (execute_with_retry r d work).1.isOk = false ∧
    (execute_with_retry r d work).2.1 = 0 := by
  unfold execute_with_retry
  rw [if_pos h]
  exact ⟨rfl, rfl, rfl⟩

/-- Witness for C8: zero attempts is rejected as `InvalidArgument` without
invoking the work. -/
theorem execute_with_retry_nonpos_witness :
    (execute_with_retry 0 7 (fun _ => Status.ok)).1.isInvalidArgument = true ∧
    (execute_with_retry 0 7 (fun _ => Status.ok)).1.isOk = false ∧
    (execute_with_retry 0 7 (fun _ => Status.ok)).2.1 = 0 :=
  execute_with_retry_nonpos 0 7 (fun _ => Status.ok) (by decide)

/-- When every attempt fails, `retryLoop` starting at attempt `i` with `m + 1`
attempts remaining runs all of them, waits `m` times, and returns the status
of the last attempt `i + m`. -/
theorem retryLoop_all_fail (work : Nat → Status) (d : Nat)
    (hfail : ∀ i, (work i).isOk = false) :
    ∀ m i, retryLoop work d i (m + 1) = (work (i + m), m + 1, m * d) := by
  intro m
  induction m with
  | zero =>
      intro i
      simp [retryLoop]
  | succ m ih =>
      intro i
      have hs := hfail i
      show retryLoop work d i (m + 1 + 1) = _
      rw [show m + 1 + 1 = m + 2 from rfl]
      simp only [retryLoop, hs, Bool.false_eq_true, if_false, ih (i + 1)]
      have h1 : i + 1 + m = i + (m + 1) := by omega
      have h2 : m * d + d = (m + 1) * d := by ring
      rw [h1, h2]

/-- C2: when the unit of work fails on every attempt, `execute_with_retry`
with a positive attempt count `n` invokes the work exactly `n` times, waits
`d` between consecutive attempts but not after the final one (total waiting
time `(n - 1) * d`), and returns the error of the last, `n`-th invocation. -/
theorem execute_with_retry_all_fail (n d : Nat) (work : Nat → Status)
    (hn : 0 < n) (hfail : ∀ i, (work i).isOk = false) :
    execute_with_retry (n : Int) d work = (work (n - 1), n, (n - 1) * d) := by
  unfold execute_with_retry
  rw [if_neg (not_le.mpr (by exact_mod_cast hn))]
  cases n with
  | zero => exact absurd hn (by omega)
  | succ m =>
      rw [show ((m + 1 : Nat) : Int).toNat = m + 1 by simp]
      rw [retryLoop_all_fail work d hfail m 0]
      simp

/-- Witness for C2: a work that fails with a distinct message on every attempt,
run with 3 attempts and delay 10, is invoked 3 times, waits 20 total, and
returns the third attempt's error. -/
theorem execute_with_retry_all_fail_witness :
    execute_with_retry (3 : Int) 10
        (fun i => Status.networkError (toString i)) =
      (Status.networkError "2", 3, 20) := by
  have h := execute_with_retry_all_fail 3 10
    (fun i => Status.networkError (toString i)) (by decide)
    (fun i => rfl)
  simpa using h

/-- When the first success is attempt `i + j` (with `j` failures before it,
all within the `m + 1` remaining attempts), `retryLoop` stops there: `j + 1`
invocations, `j` waits, success returned. -/
theorem retryLoop_first_success (work : Nat → Status) (d : Nat) :
    ∀ j m i, j ≤ m →
      (∀ t, t < j → (work (i + t)).isOk = false) →
      (work (i + j)).isOk = true →
      retryLoop work d i (m + 1) = (work (i + j), j + 1, j * d) := by
  intro j
  induction j with
  | zero =>
      intro m i _ _ hsucc
      rw [Nat.add_zero] at hsucc
      cases m with
      | zero => simp [retryLoop]
      | succ m' => simp [retryLoop, hsucc]
  | succ j' ih =>
      intro m i hjm hfail hsucc
      cases m with
      | zero => omega
      | succ m' =>
          have h0 : (work i).isOk = false := by
            have := hfail 0 (Nat.succ_pos j')
            rwa [Nat.add_zero] at this
          have hfail' : ∀ t, t < j' → (work (i + 1 + t)).isOk = false := by
            intro t ht
            have := hfail (t + 1) (by omega)
            rwa [show i + (t + 1) = i + 1 + t by omega] at this
          have hsucc' : (work (i + 1 + j')).isOk = true := by
            rwa [show i + (j' + 1) = i + 1 + j' by omega] at hsucc
          have hrec := ih m' (i + 1) (by omega) hfail' hsucc'
          show retryLoop work d i (m' + 2) = _
          simp only [retryLoop, h0, Bool.false_eq_true, if_false, hrec]
          rw [show i + 1 + j' = i + (j' + 1) by omega,
            show j' * d + d = (j' + 1) * d by ring]

/-- C5: when the unit of work first succeeds on attempt `k` with `k ≤ n`,
`execute_with_retry` with attempt count `n` invokes the work exactly `k`
times and returns success — the loop short-circuits on the first successful
attempt. -/
theorem execute_with_retry_first_success (n k d : Nat) (work : Nat → Status)
    (hk : 0 < k) (hkn : k ≤ n)
    (hfail : ∀ i, i < k - 1 → (work i).isOk = false)
    (hsucc : (work (k - 1)).isOk = true) :
    (execute_with_retry (n : Int) d work).1.isOk = true ∧
    (execute_with_retry (n : Int) d work).2.1 = k := by
  unfold execute_with_retry
  rw [if_neg (not_le.mpr (by exact_mod_cast lt_of_lt_of_le hk hkn))]
  obtain ⟨m, rfl⟩ : ∃ m, n = m + 1 := ⟨n - 1, by omega⟩
  rw [show ((m + 1 : Nat) : Int).toNat = m + 1 by simp]
  rw [retryLoop_first_success work d (k - 1) m 0 (by omega)
    (fun t ht => by simpa using hfail t ht) (by simpa using hsucc)]
  constructor
  · simpa using hsucc
  · show k - 1 + 1 = k
    omega

/-- Witness for C5: a work failing on the first attempt and succeeding on the
second, run with 5 attempts, is invoked exactly twice and succeeds. -/
theorem execute_with_retry_first_success_witness :
    (execute_with_retry (5 : Int) 10
        (fun i => if i = 0 then Status.networkError "first" else Status.ok)).1.isOk
        = true ∧
    (execute_with_retry (5 : Int) 10
        (fun i => if i = 0 then Status.networkError "first" else Status.ok)).2.1 = 2 :=
  execute_with_retry_first_success 5 2 10
    (fun i => if i = 0 then Status.networkError "first" else Status.ok)
    (by decide) (by decide) (fun i hi => by interval_cases i; rfl) (by decide)

/-- C9: in streaming mode, if the callback accepts every chunk before `c` and
returns `false` on `c`, the execution surfaces a `NetworkError` (transfer
aborted by the consumer) and no chunk after `c` is ever delivered to the
callback: the delivered sequence is exactly the prefix up to and including
`c`. -/
theorem execute_streaming_abort (cb : Chunk → Bool) (pre post : List Chunk)
    (c : Chunk) (hpre : ∀ x ∈ pre, cb x = true) (hc : cb c = false) :
    (execute_streaming cb (pre ++ c :: post)).1.isNetworkError = true ∧
    (execute_streaming cb (pre ++ c :: post)).2 = pre ++ [c] := by
  induction pre with
  | nil => simp [execute_streaming, hc, Status.isNetworkError]
  | cons a pre ih =>
      have ha : cb a = true := hpre a (List.mem_cons_self a pre)
      have ih' := ih (fun x hx => hpre x (List.mem_cons_of_mem a hx))
      simp only [List.cons_append, execute_streaming, ha, if_true]
      exact ⟨ih'.1, by simp [ih'.2]⟩

/-- Witness for C9: the wire delivers three chunks; the consumer rejects the
second; the third is never delivered. -/
theorem execute_streaming_abort_witness :
    (execute_streaming (fun c => c.length < 3)
        ([[1], [2, 3, 4], [5]] : List Chunk)).1.isNetworkError = true ∧
    (execute_streaming (fun c => c.length < 3)
        ([[1], [2, 3, 4], [5]] : List Chunk)).2 = [[1], [2, 3, 4]] := by
  have h := execute_streaming_abort (fun c => c.length < 3) [[1]] [[5]] [2, 3, 4]
    (by decide) (by decide)
  simpa using h

/-- Decoding a character other than `%` at the head passes it through. -/
theorem percentDecode_cons_ne (c : Char) (l : List Char) (h : c ≠ '%') :
    percentDecode (c :: l) = c :: percentDecode l := by
  cases l with
  | nil => simp [percentDecode, h]
  | cons h1 t1 =>
      cases t1 with
      | nil => simp [percentDecode, h]
      | cons h2 t2 => simp [percentDecode, h]

/-- Decoding the escape sequence `%25` at the head yields a literal `%`. -/
theorem percentDecode_escape_head (l : List Char) :
    percentDecode ('%' :: '2' :: '5' :: l) = '%' :: percentDecode l := by
  have h2 : hexVal '2' = some 2 := by decide
  have h5 : hexVal '5' = some 5 := by decide
  have h37 : Char.ofNat (16 * 2 + 5) = '%' := by decide
  simp [percentDecode, h2, h5, h37]

/-- Percent-decoding inverts the escaping of `%` on every string. -/
theorem percentDecode_escape_url (s : List Char) :
    percentDecode (escape_url s) = s := by
  induction s with
  | nil => rfl
  | cons c rest ih =>
      by_cases hc : c = '%'
      · subst hc
        rw [show escape_url ('%' :: rest) = '%' :: '2' :: '5' :: escape_url rest by
          simp [escape_url]]
        rw [percentDecode_escape_head, ih]
      · rw [show escape_url (c :: rest) = c :: escape_url rest by simp [escape_url, hc]]
        rw [percentDecode_cons_ne c _ hc, ih]

/-- The escaped form of a string containing `%` contains the sequence `%25`. -/
theorem escape_url_contains_escape (s : List Char) (h : '%' ∈ s) :
    List.IsInfix ['%', '2', '5'] (escape_url s) := by
  induction s with
  | nil => cases h
  | cons c rest ih =>
      by_cases hc : c = '%'
      · subst hc
        exact ⟨[], escape_url rest, by simp [escape_url]⟩
      · have hrest : '%' ∈ rest := by
          rcases List.mem_cons.mp h with h' | h'
          · exact absurd h'.symm hc
          · exact h'
        obtain ⟨u, v, huv⟩ := ih hrest
        exact ⟨c :: u, v, by simp [escape_url, hc, huv]⟩

/-- C6: for every URL containing a literal `%`, the escaping step replaces
each literal `%` by `%25` (so the escaped form contains `%25`), and
percent-decoding the escaped form exactly reconstructs the original string —
escape followed by decode is the identity. -/
theorem escape_url_roundtrip (s : List Char) (h : '%' ∈ s) :
    List.IsInfix ['%', '2', '5'] (escape_url s) ∧
      percentDecode (escape_url s) = s :=
  ⟨escape_url_contains_escape s h, percentDecode_escape_url s⟩

/-- Witness for C6: the index-file name fragment `a%2Eb` escapes to
`a%252Eb` and decodes back exactly. -/
theorem escape_url_roundtrip_witness :
    List.IsInfix ['%', '2', '5'] (escape_url ['a', '%', '2', 'E', 'b']) ∧
      percentDecode (escape_url ['a', '%', '2', 'E', 'b']) = ['a', '%', '2', 'E', 'b'] :=
  escape_url_roundtrip ['a', '%', '2', 'E', 'b'] (by decide)

/-- A name is in the directory listing iff the file exists. -/
theorem fsExists_iff_mem_names (fs : FS) (p : String) :
    fsExists fs p = true ↔ p ∈ fsNames fs := by
  simp only [fsExists, fsNames, List.any_eq_true, List.mem_map,
    decide_eq_true_eq]

/-- After deleting `p`, the file `p` does not exist. -/
theorem fsExists_fsDelete (fs : FS) (p : String) :
    fsExists (fsDelete fs p) p = false := by
  rw [Bool.eq_false_iff]
  intro h
  rw [fsExists, List.any_eq_true] at h
  obtain ⟨e, he, hp⟩ := h
  rw [fsDelete, List.mem_filter] at he
  have h1 := he.2
  simp only [decide_eq_true_eq] at h1 hp
  exact h1 hp

/-- Deleting `p` does not affect the existence of another file `m`. -/
theorem fsExists_fsDelete_ne (fs : FS) (p m : String) (h : m ≠ p) :
    fsExists (fsDelete fs p) m = fsExists fs m := by
  induction fs with
  | nil => rfl
  | cons e fs ih =>
      simp only [fsDelete, List.filter_cons] at ih ⊢
      by_cases hep : e.1 = p
      · rw [if_neg (by simp [hep])]
        rw [ih]
        simp only [fsExists, List.any_cons]
        have hem : decide (e.1 = m) = false := by
          rw [hep]
          exact decide_eq_false fun hh => h hh.symm
        rw [hem, Bool.false_or]
      · rw [if_pos (by simp [hep])]
        simp only [fsExists, List.any_cons] at ih ⊢
        rw [ih]

/-- Existence after a write: the written file, or anything that existed. -/
theorem fsExists_fsWrite (fs : FS) (p : String) (sz : Nat) (m : String) :
    fsExists (fsWrite fs p sz) m = true ↔ (m = p ∨ fsExists fs m = true) := by
  by_cases hmp : m = p
  · subst hmp
    simp [fsExists, fsWrite, List.any_cons]
  · rw [fsWrite]
    have h1 : fsExists ((p, sz) :: fsDelete fs p) m = fsExists (fsDelete fs p) m := by
      simp only [fsExists, List.any_cons]
      have h2 : (decide (((p, sz) : String × Nat).1 = m)) = false :=
        decide_eq_false fun hh => hmp hh.symm
      rw [h2, Bool.false_or]
    rw [show fs.filter (fun e => decide (e.1 ≠ p)) = fsDelete fs p from rfl, h1,
      fsExists_fsDelete_ne fs p m hmp]
    constructor
    · exact Or.inr
    · rintro (h | h)
      · exact absurd h hmp
      · exact h

/-- An entry whose name differs from the written one survives a write. -/
theorem mem_fsWrite_of_ne (fs : FS) (p : String) (sz : Nat) (e : String × Nat)
    (he : e ∈ fs) (hne : e.1 ≠ p) : e ∈ fsWrite fs p sz := by
  rw [fsWrite]
  exact List.mem_cons_of_mem _ (List.mem_filter.mpr ⟨he, by simpa using hne⟩)

/-- The status `download` returns depends only on the transport outcome. -/
theorem download_fst (t : Transport) (p : String) (fs : FS) :
    (download t p fs).1 = downloadStatus t := by
  simp only [download, downloadStatus]
  split_ifs <;> rfl

/-- A successful download wrote the delivered bytes to the target path. -/
theorem download_snd_ok (t : Transport) (p : String) (fs : FS)
    (h : (downloadStatus t).isOk = true) :
    (download t p fs).2 = fsWrite fs p t.delivered := by
  simp only [download]
  split_ifs with h1 h2 h3
  · rfl
  · exfalso
    rw [downloadStatus, if_pos h1, if_pos h2, if_neg h3] at h
    simp [Status.isOk] at h
  · rfl
  · exfalso
    rw [downloadStatus, if_neg h1] at h
    exact h1 h

/-- A failed download leaves no file under the target path. -/
theorem download_snd_fail (t : Transport) (p : String) (fs : FS)
    (h : (downloadStatus t).isOk = false) :
    fsExists (download t p fs).2 p = false := by
  simp only [download]
  split_ifs with h1 h2 h3
  · exfalso
    rw [downloadStatus, if_pos h1, if_pos h2, if_pos h3] at h
    simp [Status.isOk] at h
  · exact fsExists_fsDelete _ p
  · exfalso
    rw [downloadStatus, if_pos h1, if_neg h2] at h
    simp [Status.isOk] at h
  · exact fsExists_fsDelete fs p

/-- A download never removes a file other than its own target. -/
theorem download_preserves_other (t : Transport) (p : String) (fs : FS)
    (m : String) (hm : m ≠ p) (hex : fsExists fs m = true) :
    fsExists (download t p fs).2 m = true := by
  simp only [download]
  split_ifs with h1 h2 h3
  · exact (fsExists_fsWrite fs p t.delivered m).mpr (Or.inr hex)
  · rw [fsExists_fsDelete_ne _ p m hm]
    exact (fsExists_fsWrite fs p t.delivered m).mpr (Or.inr hex)
  · exact (fsExists_fsWrite fs p t.delivered m).mpr (Or.inr hex)
  · rw [fsExists_fsDelete_ne fs p m hm]
    exact hex

/-- C1: when the server advertised a present, valid content length and the
number of bytes actually written differs from it, `download` returns a
`DataCorruption` error and the file at the local path does not exist
afterwards — the partial file is deleted, never left under its final name. -/
theorem download_length_mismatch (t : Transport) (p : String) (fs : FS)
    (hex : t.execStatus.isOk = true) (hcl : clPresentValid t)
    (hmm : t.cl.toNat ≠ t.delivered) :
    (download t p fs).1.isDataCorruption = true ∧
    fsExists (download t p fs).2 p = false := by
  have hst : downloadStatus t = Status.dataCorruption "download length mismatch" := by
    rw [downloadStatus, if_pos hex, if_pos hcl, if_neg hmm]
  constructor
  · rw [download_fst, hst]
    rfl
  · apply download_snd_fail
    rw [hst]
    rfl

/-- Witness for C1: the server advertises 7 bytes, the stream delivers 3; the
pre-existing file under the target name is gone afterwards and the error is
`DataCorruption`. -/
theorem download_length_mismatch_witness :
    (download tCorrupt "seg.idx" [("seg.idx", 9)]).1.isDataCorruption = true ∧
    fsExists (download tCorrupt "seg.idx" [("seg.idx", 9)]).2 "seg.idx" = false :=
  download_length_mismatch tCorrupt "seg.idx" [("seg.idx", 9)]
    (by decide) (by decide) (by decide)

/-- Existence in the stale-cleanup result: the file existed and its name is
expected. -/
theorem fsExists_filter_expected (fs : FS) (expected : List String) (m : String) :
    fsExists (fs.filter (fun e => decide (e.1 ∈ expected))) m = true ↔
      (fsExists fs m = true ∧ m ∈ expected) := by
  simp only [fsExists, List.any_eq_true, List.mem_filter, decide_eq_true_eq]
  constructor
  · rintro ⟨e, ⟨he, hexp⟩, rfl⟩
    exact ⟨⟨e, he, rfl⟩, hexp⟩
  · rintro ⟨⟨e, he, rfl⟩, hexp⟩
    exact ⟨e, ⟨he, hexp⟩, rfl⟩

/-- A run of `downloadLoop` that ends in success issued one call per name in
order, preserved every prior entry whose name it did not fetch, and a file
exists afterwards iff it existed before or its name was in the list. -/
theorem downloadLoop_ok (remote : String → Transport) (base : String) :
    ∀ (names : List String) (fs : FS),
      (downloadLoop remote base names fs).1.isOk = true →
      (downloadLoop remote base names fs).2.2 = names ∧
      (∀ e ∈ fs, e.1 ∉ names → e ∈ (downloadLoop remote base names fs).2.1) ∧
      (∀ m, fsExists (downloadLoop remote base names fs).2.1 m = true ↔
        (fsExists fs m = true ∨ m ∈ names)) := by
  intro names
  induction names with
  | nil =>
      intro fs _
      refine ⟨rfl, fun e he _ => he, fun m => ?_⟩
      simp [downloadLoop]
  | cons n rest ih =>
      intro fs hok
      by_cases hd : (download (remote (urlOf base n)) n fs).1.isOk = true
      · have hds : (downloadStatus (remote (urlOf base n))).isOk = true := by
          rwa [download_fst] at hd
        have hfs' : (download (remote (urlOf base n)) n fs).2
            = fsWrite fs n (remote (urlOf base n)).delivered :=
          download_snd_ok _ _ _ hds
        simp only [downloadLoop, hd, if_true] at hok ⊢
        obtain ⟨hcalls, hpres, hex⟩ := ih _ hok
        refine ⟨by rw [hcalls], ?_, ?_⟩
        · intro e he hni
          have hne : e.1 ≠ n := fun hh => hni (hh ▸ List.mem_cons_self n rest)
          have hmem : e ∈ (download (remote (urlOf base n)) n fs).2 := by
            rw [hfs']
            exact mem_fsWrite_of_ne fs n _ e he hne
          exact hpres e hmem (fun hh => hni (List.mem_cons_of_mem n hh))
        · intro m
          rw [hex m, hfs', fsExists_fsWrite, List.mem_cons]
          tauto
      · exfalso
        rw [Bool.not_eq_true] at hd
        simp [downloadLoop, hd] at hok

/-- C3: a directory sync that succeeds deletes every local file whose name is
not expected, leaves already-present expected files untouched, issues exactly
one download per expected name not already present locally (compared by name
only), and the final directory contents are exactly the expected names. -/
theorem download_multi_files_ok (remote : String → Transport) (base : String)
    (expected : List String) (fs : FS) (hnd : expected.Nodup)
    (hok : (download_multi_files remote base expected fs).1.isOk = true) :
    (∀ m, fsExists (download_multi_files remote base expected fs).2.1 m = true ↔
      m ∈ expected) ∧
    (∀ e ∈ fs, e.1 ∈ expected →
      e ∈ (download_multi_files remote base expected fs).2.1) ∧
    (download_multi_files remote base expected fs).2.2
      = expected.filter (fun n => decide (n ∉ fsNames fs)) ∧
    (download_multi_files remote base expected fs).2.2.Nodup := by
  have hunf : download_multi_files remote base expected fs
      = downloadLoop remote base
          (expected.filter (fun n => decide (n ∉ fsNames fs)))
          (fs.filter (fun e => decide (e.1 ∈ expected))) := rfl
  rw [hunf] at hok ⊢
  obtain ⟨hcalls, hpres, hex⟩ := downloadLoop_ok remote base _ _ hok
  refine ⟨?_, ?_, hcalls, ?_⟩
  · intro m
    rw [hex m, fsExists_filter_expected, List.mem_filter]
    rw [fsExists_iff_mem_names]
    simp only [decide_eq_true_eq]
    tauto
  · intro e he hexp
    have hkept : e ∈ fs.filter (fun e => decide (e.1 ∈ expected)) :=
      List.mem_filter.mpr ⟨he, by simpa using hexp⟩
    have hnames : e.1 ∈ fsNames fs := List.mem_map.mpr ⟨e, he, rfl⟩
    refine hpres e hkept ?_
    intro hmiss
    have := (List.mem_filter.mp hmiss).2
    simp only [decide_eq_true_eq] at this
    exact this hnames
  · rw [hcalls]
    exact hnd.filter _

/-- Witness for C3: syncing a directory containing `a` (3 bytes) and a stale
`x` against the expected set `{a, b, c}` deletes `x`, downloads exactly `b`
and `c`, keeps `a` untouched, and ends with contents `{a, b, c}`. -/
theorem download_multi_files_ok_witness :
    (∀ m, fsExists (download_multi_files remoteAllOk "" ["a", "b", "c"]
        [("a", 3), ("x", 5)]).2.1 m = true ↔ m ∈ ["a", "b", "c"]) ∧
    (∀ e ∈ ([("a", 3), ("x", 5)] : FS), e.1 ∈ ["a", "b", "c"] →
      e ∈ (download_multi_files remoteAllOk "" ["a", "b", "c"]
        [("a", 3), ("x", 5)]).2.1) ∧
    (download_multi_files remoteAllOk "" ["a", "b", "c"]
        [("a", 3), ("x", 5)]).2.2
      = (["a", "b", "c"].filter
          (fun n => decide (n ∉ fsNames [("a", 3), ("x", 5)]))) ∧
    (download_multi_files remoteAllOk "" ["a", "b", "c"]
        [("a", 3), ("x", 5)]).2.2.Nodup :=
  download_multi_files_ok remoteAllOk "" ["a", "b", "c"] [("a", 3), ("x", 5)]
    (by decide) (by decide)

/-- A run of `downloadLoop` in which every name before `bad` downloads
successfully and `bad` fails: the loop stops at `bad`, returns its error,
leaves no file named `bad`, and keeps every other file that existed before or
was downloaded earlier in the pass. -/
theorem downloadLoop_fail (remote : String → Transport) (base : String)
    (bad : String) (post : List String)
    (hbad : (downloadStatus (remote (urlOf base bad))).isOk = false) :
    ∀ (pre : List String) (fs : FS),
      (∀ n ∈ pre, (downloadStatus (remote (urlOf base n))).isOk = true) →
      bad ∉ pre →
      (downloadLoop remote base (pre ++ bad :: post) fs).1
          = downloadStatus (remote (urlOf base bad)) ∧
      (downloadLoop remote base (pre ++ bad :: post) fs).2.2 = pre ++ [bad] ∧
      fsExists (downloadLoop remote base (pre ++ bad :: post) fs).2.1 bad
          = false ∧
      (∀ m, m ≠ bad → (fsExists fs m = true ∨ m ∈ pre) →
        fsExists (downloadLoop remote base (pre ++ bad :: post) fs).2.1 m
          = true) := by
  intro pre
  induction pre with
  | nil =>
      intro fs _ _
      have hd : (download (remote (urlOf base bad)) bad fs).1.isOk = false := by
        rw [download_fst]
        exact hbad
      simp only [List.nil_append, downloadLoop, hd, Bool.false_eq_true, if_false]
      refine ⟨download_fst _ _ _, trivial, download_snd_fail _ _ _ hbad, ?_⟩
      intro m hm hmem
      rcases hmem with hex | hpre
      · exact download_preserves_other _ bad fs m hm hex
      · cases hpre
  | cons a pre ih =>
      intro fs hpre hbadpre
      have ha : (downloadStatus (remote (urlOf base a))).isOk = true :=
        hpre a (List.mem_cons_self a pre)
      have hd : (download (remote (urlOf base a)) a fs).1.isOk = true := by
        rw [download_fst]
        exact ha
      have hfs' : (download (remote (urlOf base a)) a fs).2
          = fsWrite fs a (remote (urlOf base a)).delivered :=
        download_snd_ok _ _ _ ha
      have hbad' : bad ∉ pre := fun hh => hbadpre (List.mem_cons_of_mem a hh)
      have hrec := ih ((download (remote (urlOf base a)) a fs).2)
        (fun n hn => hpre n (List.mem_cons_of_mem a hn)) hbad'
      simp only [List.cons_append, downloadLoop, hd, if_true]
      refine ⟨hrec.1, congrArg (List.cons a) hrec.2.1, hrec.2.2.1, ?_⟩
      intro m hm hmem
      apply hrec.2.2.2 m hm
      rcases hmem with hex | hmem
      · left
        rw [hfs']
        exact (fsExists_fsWrite fs a _ m).mpr (Or.inr hex)
      · rcases List.mem_cons.mp hmem with rfl | hmem
        · left
          rw [hfs']
          exact (fsExists_fsWrite fs m _ m).mpr (Or.inl rfl)
        · right
          exact hmem

/-- C4: when some individual download in a directory sync fails, the first
failure aborts the whole operation and its error is returned; every file
successfully downloaded earlier in the same pass remains on disk (no global
rollback), and the failed file is absent; names after the failed one are
never attempted. -/
theorem download_multi_files_first_failure (remote : String → Transport)
    (base : String) (expected : List String) (fs : FS)
    (pre post : List String) (bad : String)
    (hnd : expected.Nodup)
    (hmiss : expected.filter (fun n => decide (n ∉ fsNames fs))
      = pre ++ bad :: post)
    (hpre : ∀ n ∈ pre, (downloadStatus (remote (urlOf base n))).isOk = true)
    (hbad : (downloadStatus (remote (urlOf base bad))).isOk = false) :
    (download_multi_files remote base expected fs).1
        = downloadStatus (remote (urlOf base bad)) ∧
    (download_multi_files remote base expected fs).1.isOk = false ∧
    (download_multi_files remote base expected fs).2.2 = pre ++ [bad] ∧
    (∀ n ∈ pre,
      fsExists (download_multi_files remote base expected fs).2.1 n = true) ∧
    fsExists (download_multi_files remote base expected fs).2.1 bad = false := by
  have hbadpre : bad ∉ pre := by
    have hnodup : (pre ++ bad :: post).Nodup := by
      rw [← hmiss]
      exact hnd.filter _
    have hdisj := (List.nodup_append.mp hnodup).2.2
    intro hh
    exact hdisj hh (List.mem_cons_self bad post)
  have hunf : download_multi_files remote base expected fs
      = downloadLoop remote base
          (expected.filter (fun n => decide (n ∉ fsNames fs)))
          (fs.filter (fun e => decide (e.1 ∈ expected))) := rfl
  rw [hunf, hmiss]
  obtain ⟨hst, hcalls, habs, hkeep⟩ := downloadLoop_fail remote base bad post
    hbad pre (fs.filter (fun e => decide (e.1 ∈ expected))) hpre hbadpre
  refine ⟨hst, ?_, hcalls, ?_, habs⟩
  · rw [hst]
    exact hbad
  · intro n hn
    have hne : n ≠ bad := fun hh => hbadpre (hh ▸ hn)
    exact hkeep n hne (Or.inr hn)

/-- Witness for C4: syncing an empty directory against `{a, b, c}` where the
download of `c` fails at the network level: the operation fails with that
error, `a` and `b` remain on disk, `c` is absent, and exactly `a`, `b`, `c`
were attempted in that order. -/
theorem download_multi_files_first_failure_witness :
    (download_multi_files remoteBadC "" ["a", "b", "c"] []).1
        = downloadStatus (remoteBadC (urlOf "" "c")) ∧
    (download_multi_files remoteBadC "" ["a", "b", "c"] []).1.isOk = false ∧
    (download_multi_files remoteBadC "" ["a", "b", "c"] []).2.2
        = ["a", "b"] ++ ["c"] ∧
    (∀ n ∈ ["a", "b"],
      fsExists (download_multi_files remoteBadC "" ["a", "b", "c"] []).2.1 n
        = true) ∧
    fsExists (download_multi_files remoteBadC "" ["a", "b", "c"] []).2.1 "c"
        = false :=
  download_multi_files_first_failure remoteBadC "" ["a", "b", "c"] []
    ["a", "b"] [] "c" (by decide) (by decide) (by decide) (by decide)

end HttpClientSpec
